/-
  Verification of the TurboAss Z80 one-pass assembler (z80_assembler.cpp)
  against its natural-language specification.

  The driver, the bounds check `checkPC`, the fatal-error reporter `Error`
  and the end-of-run file-emission stage are embedded from
  src/z80_assembler.cpp.  The tokenizer, expression evaluator, symbol table
  and instruction encoder live in other files of the repository; where a
  claim depends on them they are modelled from the specification text, and
  each such definition carries a doc comment saying so.
-/
import Mathlib

namespace Z80Asm

/-- Size of the simulated Z80 address space (`RAMSIZE` in the source). -/
def RAMSIZE : Nat := 0x10000

/-- Pointwise update of a memory function at one address. -/
def upd (m : Nat → Nat) (a v : Nat) : Nat → Nat :=
  fun x => if x = a then v else m x

/-- The Memory Image: the 64K RAM byte buffer together with the
touched-address bookkeeping `minPC`/`maxPC` (globals in the source,
initialised to `RAMSIZE` and `0` at lines 20-21 of z80_assembler.cpp). -/
structure Img where
  ram : Nat → Nat
  minPC : Nat
  maxPC : Nat
deriving Inhabited

/-- Initial Memory Image: RAM erased to the fill byte, `minPC = RAMSIZE`,
`maxPC = 0` (lines 20-21 and 176-177 of z80_assembler.cpp). -/
def initImg (fill : Nat) : Img :=
  { ram := fun _ => fill, minPC := RAMSIZE, maxPC := 0 }

/-- Embeds `checkPC` (z80_assembler.cpp lines 323-334): a fatal
"Address overflow" error when `pc >= RAMSIZE`, otherwise the
touched range is widened to include `pc`. -/
def checkPC (pc : Nat) (s : Img) : Except String Img :=
  if pc ≥ RAMSIZE then
    .error "Address overflow -> exit"
  else
    .ok { s with
          minPC := if pc < s.minPC then pc else s.minPC,
          maxPC := if pc > s.maxPC then pc else s.maxPC }

/-- Modelled from the spec: every write of a byte into the Memory Image
passes through the bounds check (`checkPC` is called before each RAM store
by the encoder, which is not under src/); a write that passes the check
stores the byte and updates the touched range. -/
def emit (b : Nat) (a : Nat) (s : Img) : Except String Img :=
  (checkPC a s).map (fun s2 => { s2 with ram := upd s2.ram a (b % 256) })

/-- Modelled from the spec: how a value is encoded into patched bytes.
`absWord` is a 16-bit little-endian absolute value (width 2);
`signedRelativeFrom a` is a signed one-byte displacement computed against
the stored address `a` of the instruction's end (width 1). -/
inductive Encoding where
  | absWord
  | signedRelativeFrom (addr : Nat)
deriving DecidableEq

/-- Modelled from the spec: a Fixup records a promise to patch memory once
a symbol becomes known: the `location` to patch, the `encoding`, and a
`constantOffset` added to the symbol's value before encoding. -/
structure Fixup where
  location : Nat
  encoding : Encoding
  constantOffset : Int
deriving DecidableEq

/-- Modelled from the spec: a Symbol-Table entry: a 16-bit `value`
(meaningful only when `defined` is true) and the ordered list of
`pendingFixups` awaiting this symbol's definition. -/
structure Symbol where
  value : Nat
  defined : Bool
  pendingFixups : List Fixup
deriving DecidableEq

/-- A fresh, still-undefined symbol-table placeholder. -/
def newSymbol : Symbol := { value := 0, defined := false, pendingFixups := [] }

/-- Modelled from the spec: the symbol table as an association list keyed
by case-sensitive name. -/
def SymTab := List (String × Symbol)

/-- Symbol-table lookup; a missing name denotes the undefined placeholder
that `lookupOrCreate` would create. -/
def SymTab.find (t : SymTab) (n : String) : Symbol :=
  match t with
  | [] => newSymbol
  | (m, s) :: rest => if n = m then s else SymTab.find rest n

/-- Store a symbol under a name, creating the entry if absent. -/
def SymTab.set (t : SymTab) (n : String) (s : Symbol) : SymTab :=
  match t with
  | [] => [(n, s)]
  | (m, s0) :: rest => if n = m then (m, s) :: rest else (m, s0) :: SymTab.set rest n s

/-- Modelled from the spec: final storage arithmetic is performed modulo
2^16; a 16-bit value is emitted as (low byte, high byte). -/
def encodeWord (t : Int) : Nat × Nat :=
  let w := (t % 65536).toNat
  (w % 256, w / 256)

/-- Modelled from the spec: the two's-complement byte of a signed
displacement. -/
def dispByte (d : Int) : Nat := (d % 256).toNat

/-- Signed interpretation of a byte value, to read a stored displacement
back as an integer in -128..127. -/
def asSigned (b : Nat) : Int := if b % 256 < 128 then (b % 256 : Int) else (b % 256 : Int) - 256

/-- The assembler state threaded through the one-pass run: the Memory
Image, the cursor `pc`, the symbol table, and the driver's end-of-program
signal `reachedEnd`. -/
structure AsmState where
  img : Img
  pc : Nat
  symtab : SymTab
  reachedEnd : Bool

/-- Initial assembler state (PC starts at 0, line 178 of
z80_assembler.cpp; empty symbol table; `reachedEnd` unset). -/
def initState (fill : Nat) : AsmState :=
  { img := initImg fill, pc := 0, symtab := [], reachedEnd := false }

/-- The two Z80 relative-branch mnemonics. -/
inductive RelOp where
  | jr
  | djnz
deriving DecidableEq

/-- Opcode byte of a relative branch: `JR e` is 0x18, `DJNZ e` is 0x10. -/
def RelOp.opcode : RelOp → Nat
  | .jr => 0x18
  | .djnz => 0x10

/-- The statement forms the claims quantify over: `ORG`, a label
definition, `JP label` (absolute, 3 bytes), `JR`/`DJNZ label` (relative,
2 bytes), and the `END` directive. -/
inductive Stmt where
  | org (a : Nat)
  | labelDef (name : String)
  | jp (name : String)
  | relBranch (op : RelOp) (name : String)
  | endDirective
deriving DecidableEq

/-- Modelled from the spec: patch one Fixup once its symbol's value `v` is
known: apply `constantOffset`, then encode per the Fixup's kind and write
the bytes into the Memory Image at `location`; a `signedRelativeFrom`
displacement outside -128..127 is fatal at this point. -/
def applyFixup (v : Nat) (f : Fixup) (s : Img) : Except String Img :=
  match f.encoding with
  | .absWord =>
      let (lo, hi) := encodeWord ((v : Int) + f.constantOffset)
      (emit lo f.location s).bind (emit hi (f.location + 1))
  | .signedRelativeFrom a =>
      let d : Int := ((v : Int) + f.constantOffset) - (a : Int)
      if d < -128 ∨ d > 127 then .error "Relative jump out of range"
      else emit (dispByte d) f.location s

/-- Modelled from the spec: drain a pending-fixup list in order. -/
def drainFixups (v : Nat) (fs : List Fixup) (s : Img) : Except String Img :=
  match fs with
  | [] => .ok s
  | f :: rest => (applyFixup v f s).bind (drainFixups v rest)

/-- Modelled from the spec: `define(name, value, Label)`: a second
definition of an already-defined label is a fatal duplicate-label error;
otherwise the symbol becomes defined with the given value and its pending
fixups are drained into the Memory Image and cleared. -/
def defineLabel (n : String) (v : Nat) (s : AsmState) : Except String AsmState :=
  let sym := s.symtab.find n
  if sym.defined then .error "symbol already defined"
  else
    (drainFixups v sym.pendingFixups s.img).map (fun img2 =>
      { s with img := img2,
               symtab := s.symtab.set n { value := v, defined := true, pendingFixups := [] } })

/-- Modelled from the spec: append a Fixup to a symbol's pending list
(creating the undefined entry when needed). -/
def addFixup (n : String) (f : Fixup) (t : SymTab) : SymTab :=
  let sym := t.find n
  t.set n { sym with pendingFixups := sym.pendingFixups ++ [f] }

/-- Modelled from the spec: encode one statement. `ORG` moves the cursor;
a label is defined at the current cursor; `JP nn` emits 0xC3 and a 16-bit
address (placeholder 0x0000 plus an `absWord` Fixup when unresolved);
`JR`/`DJNZ e` emit the opcode and a displacement byte computed against the
address after the 2-byte instruction, fatally out of range outside
-128..127 (placeholder 0x00 plus a `signedRelativeFrom` Fixup when
unresolved); `END` sets the driver's end-of-program signal. -/
def assembleStmt (st : Stmt) (s : AsmState) : Except String AsmState :=
  match st with
  | .org a => .ok { s with pc := a }
  | .labelDef n => defineLabel n s.pc s
  | .jp n =>
      let sym := s.symtab.find n
      if sym.defined then
        let (lo, hi) := encodeWord (sym.value : Int)
        ((emit 0xC3 s.pc s.img).bind (fun i1 => (emit lo (s.pc + 1) i1).bind
          (emit hi (s.pc + 2)))).map (fun img2 => { s with img := img2, pc := s.pc + 3 })
      else
        ((emit 0xC3 s.pc s.img).bind (fun i1 => (emit 0 (s.pc + 1) i1).bind
          (emit 0 (s.pc + 2)))).map (fun img2 =>
            { s with img := img2, pc := s.pc + 3,
                     symtab := addFixup n ⟨s.pc + 1, .absWord, 0⟩ s.symtab })
  | .relBranch op n =>
      let sym := s.symtab.find n
      if sym.defined then
        let d : Int := (sym.value : Int) - ((s.pc : Int) + 2)
        if d < -128 ∨ d > 127 then .error "Relative jump out of range"
        else
          ((emit op.opcode s.pc s.img).bind (emit (dispByte d) (s.pc + 1))).map
            (fun img2 => { s with img := img2, pc := s.pc + 2 })
      else
        ((emit op.opcode s.pc s.img).bind (emit 0 (s.pc + 1))).map (fun img2 =>
          { s with img := img2, pc := s.pc + 2,
                   symtab := addFixup n ⟨s.pc + 1, .signedRelativeFrom (s.pc + 2), 0⟩ s.symtab })
  | .endDirective => .ok { s with reachedEnd := true }

/-- Embeds the driver loop of `main` (z80_assembler.cpp lines 200-211):
while the end-of-program signal is unset, one line is taken and fully
encoded before the next; once `reachedEnd` holds, remaining lines are not
processed. -/
def assemble (prog : List Stmt) (s : AsmState) : Except String AsmState :=
  match prog with
  | [] => .ok s
  | st :: rest =>
      if s.reachedEnd then .ok s
      else (assembleStmt st s).bind (assemble rest)

/-- Modelled from the spec: the `finalize()` enumeration handed to the
cross-reference printer (z80_assembler.cpp lines 216-223 consume it): each
symbol with its value, or `none` when it is still undefined. -/
def finalize (t : SymTab) : List (String × Option Nat) :=
  t.map (fun p => (p.1, if p.2.defined then some p.2.value else none))

/-- Outcome of the post-assembly stage of `main`: either the
"No data created" exit, or output files written for a start/size range, or
the "No output files created" exit. -/
inductive Outcome where
  | noData
  | files (start size : Nat)
  | noFiles
deriving DecidableEq

/-- Process exit status attached to each post-assembly outcome
("No data created" exits with status 1, the other paths return 0). -/
def Outcome.exitCode : Outcome → Nat
  | .noData => 1
  | .files _ _ => 0
  | .noFiles => 0

/-- Whether an outcome wrote any output file. -/
def Outcome.producesFiles : Outcome → Bool
  | .files _ _ => true
  | _ => false

/-- Embeds the tail of `main` (z80_assembler.cpp lines 229-318): with
listing or verbose mode on and `minPC > maxPC`, print "No data created"
and exit 1; otherwise, when an output file name exists, write the files
over the range selected by the externally supplied `offset` (the whole
touched range when `offset < 0`, else from `offset` to `maxPC`). -/
def mainTail (listing : Bool) (verboseMode : Nat) (hasOutName : Bool)
    (offset : Int) (img : Img) : Outcome :=
  if (listing || verboseMode ≠ 0) && ¬ (img.minPC ≤ img.maxPC) then .noData
  else if hasOutName then
    let start := if offset < 0 then img.minPC else offset.toNat
    .files start (img.maxPC + 1 - start)
  else .noFiles

/-- Embeds `main`'s run shape: assemble all lines (a fatal error aborts
with no outcome), then run the post-assembly stage.  The result keeps the
final Memory Image so that what was encoded can be compared across runs. -/
def mainRun (prog : List Stmt) (fill : Nat) (offset : Int)
    (listing : Bool) (verboseMode : Nat) (hasOutName : Bool) :
    Except String (Img × Outcome) :=
  (assemble prog (initState fill)).map (fun s =>
    (s.img, mainTail listing verboseMode hasOutName offset s.img))

/-- The character class of C `isspace` in the default locale. -/
def isCSpace (c : Char) : Bool :=
  c = ' ' || c = '\t' || c = '\n' || c = '\x0b' || c = '\x0c' || c = '\r'

/-- What a fatal error reports before terminating the run. -/
structure ErrorReport where
  line : Nat
  echoed : List Char
  exitCode : Nat
deriving DecidableEq

/-- Embeds `Error` (z80_assembler.cpp lines 35-43): print the current line
number, echo the current line buffer starting from its first
non-whitespace character, and `exit(1)`. -/
def errorReport (lineNo : Nat) (lineBuf : List Char) : ErrorReport :=
  { line := lineNo, echoed := lineBuf.dropWhile isCSpace, exitCode := 1 }

/-- The spec's words: the source line text trimmed of whitespace, i.e.
with both leading and trailing whitespace removed. -/
def specTrim (l : List Char) : List Char :=
  ((l.dropWhile isCSpace).reverse.dropWhile isCSpace).reverse

/-- Embeds line 205 of z80_assembler.cpp: the last character of the string
returned by `fgets` is unconditionally overwritten with NUL before the
line is tokenized. -/
def chopEol (l : List Char) : List Char := l.dropLast

/-- A sequence of raw byte writes (byte, address), as issued by the
encoder over a run. -/
def emitList (ws : List (Nat × Nat)) (s : Img) : Except String Img :=
  match ws with
  | [] => .ok s
  | (b, a) :: rest => (emit b a s).bind (emitList rest)

lemma emit_ok (b a : Nat) (s : Img) (h : a < RAMSIZE) :
    emit b a s = .ok ⟨upd s.ram a (b % 256), min s.minPC a, max s.maxPC a⟩ := by
  have hmin : (if a < s.minPC then a else s.minPC) = min s.minPC a := by split <;> omega
  have hmax : (if a > s.maxPC then a else s.maxPC) = max s.maxPC a := by split <;> omega
  have hge : ¬ (a ≥ RAMSIZE) := by omega
  simp [emit, checkPC, Except.map, hge, hmin, hmax]

lemma emit_overflow (b a : Nat) (s : Img) (h : a ≥ RAMSIZE) :
    emit b a s = .error "Address overflow -> exit" := by
  unfold emit checkPC
  rw [if_pos h]
  rfl

/-- C1: for every write into the Memory Image, the target address is
bounds-checked: an address `a ≥ 0x10000` causes a fatal address-overflow
error that aborts the run, and for every write with `a < 0x10000` the
check passes, the byte is stored, `minTouched` becomes
`min minTouched a` and `maxTouched` becomes `max maxTouched a`. -/
theorem claim1_write_bounds_checked (b a : Nat) (s : Img) :
    (a ≥ 0x10000 → emit b a s = .error "Address overflow -> exit") ∧
    (a < 0x10000 →
      ∃ s2, emit b a s = .ok s2 ∧
        s2.minPC = min s.minPC a ∧ s2.maxPC = max s.maxPC a ∧
        s2.ram = upd s.ram a (b % 256)) := by
  constructor
  · intro h
    exact emit_overflow b a s h
  · intro h
    exact ⟨_, emit_ok b a s h, rfl, rfl, rfl⟩

/-- Witness for C1 at concrete inputs: address 0x10000 overflows fatally,
address 3 passes and updates the touched range. -/
theorem claim1_write_bounds_checked_witness :
    emit 0xAB 0x10000 (initImg 0) = .error "Address overflow -> exit" ∧
    ∃ s2, emit 0xAB 3 (initImg 0) = .ok s2 ∧
      s2.minPC = min (initImg 0).minPC 3 ∧ s2.maxPC = max (initImg 0).maxPC 3 ∧
      s2.ram = upd (initImg 0).ram 3 (0xAB % 256) :=
  ⟨(claim1_write_bounds_checked 0xAB 0x10000 (initImg 0)).1 (by decide),
   (claim1_write_bounds_checked 0xAB 3 (initImg 0)).2 (by decide)⟩

lemma emitList_ok (ws : List (Nat × Nat)) (s : Img) (hw : ∀ p ∈ ws, p.2 < RAMSIZE) :
    ∃ s2, emitList ws s = .ok s2 ∧
      s2.minPC = (ws.map Prod.snd).foldl min s.minPC ∧
      s2.maxPC = (ws.map Prod.snd).foldl max s.maxPC := by
  induction ws generalizing s with
  | nil => exact ⟨s, rfl, rfl, rfl⟩
  | cons p rest ih =>
      obtain ⟨b, a⟩ := p
      have ha : a < RAMSIZE := hw (b, a) (by simp)
      obtain ⟨s2, he, hmin, hmax⟩ :=
        ih ⟨upd s.ram a (b % 256), min s.minPC a, max s.maxPC a⟩
          (fun p hp => hw p (by simp [hp]))
      refine ⟨s2, ?_, by simpa using hmin, by simpa using hmax⟩
      simp only [emitList, emit_ok b a s ha, Except.bind]
      exact he

lemma foldl_min_le_init (l : List Nat) (B : Nat) : l.foldl min B ≤ B := by
  induction l generalizing B with
  | nil => exact le_refl B
  | cons x t ih => exact le_trans (ih (min B x)) (by omega)

lemma foldl_min_le_mem (l : List Nat) : ∀ B a : Nat, a ∈ l → l.foldl min B ≤ a := by
  induction l with
  | nil => intro B a h; cases h
  | cons x t ih =>
      intro B a h
      rcases List.mem_cons.mp h with h1 | h1
      · subst h1
        exact le_trans (foldl_min_le_init t (min B a)) (by omega)
      · exact ih (min B x) a h1

lemma foldl_min_choice (l : List Nat) (B : Nat) : l.foldl min B = B ∨ l.foldl min B ∈ l := by
  induction l generalizing B with
  | nil => exact Or.inl rfl
  | cons x t ih =>
      rw [List.foldl_cons]
      rcases Nat.le_total B x with hbx | hbx
      · rw [Nat.min_eq_left hbx]
        rcases ih B with h | h
        · exact Or.inl h
        · exact Or.inr (List.mem_cons_of_mem x h)
      · rw [Nat.min_eq_right hbx]
        rcases ih x with h | h
        · rw [h]
          exact Or.inr (List.mem_cons_self x t)
        · exact Or.inr (List.mem_cons_of_mem x h)

lemma foldl_max_init_le (l : List Nat) (B : Nat) : B ≤ l.foldl max B := by
  induction l generalizing B with
  | nil => exact le_refl B
  | cons x t ih => exact le_trans (by omega) (ih (max B x))

lemma foldl_max_mem_le (l : List Nat) : ∀ B a : Nat, a ∈ l → a ≤ l.foldl max B := by
  induction l with
  | nil => intro B a h; cases h
  | cons x t ih =>
      intro B a h
      rcases List.mem_cons.mp h with h1 | h1
      · subst h1
        exact le_trans (by omega) (foldl_max_init_le t (max B a))
      · exact ih (max B x) a h1

lemma foldl_max_choice (l : List Nat) (B : Nat) : l.foldl max B = B ∨ l.foldl max B ∈ l := by
  induction l generalizing B with
  | nil => exact Or.inl rfl
  | cons x t ih =>
      rw [List.foldl_cons]
      rcases Nat.le_total x B with hbx | hbx
      · rw [Nat.max_eq_left hbx]
        rcases ih B with h | h
        · exact Or.inl h
        · exact Or.inr (List.mem_cons_of_mem x h)
      · rw [Nat.max_eq_right hbx]
        rcases ih x with h | h
        · rw [h]
          exact Or.inr (List.mem_cons_self x t)
        · exact Or.inr (List.mem_cons_of_mem x h)

/-- C6: invariant of the touched-address range: starting from the initial
state (`minTouched = 0x10000`, `maxTouched = 0`), after any sequence of
in-range writes `minTouched` is the smallest and `maxTouched` the largest
address ever written, and `minTouched > maxTouched` holds if and only if
no byte has been emitted. -/
theorem claim6_touched_range_invariant (ws : List (Nat × Nat)) (fill : Nat)
    (hw : ∀ p ∈ ws, p.2 < 0x10000) :
    (initImg fill).minPC = 0x10000 ∧ (initImg fill).maxPC = 0 ∧
    ∃ s, emitList ws (initImg fill) = .ok s ∧
      (∀ p ∈ ws, s.minPC ≤ p.2 ∧ p.2 ≤ s.maxPC) ∧
      (ws ≠ [] → s.minPC ∈ ws.map Prod.snd ∧ s.maxPC ∈ ws.map Prod.snd) ∧
      (s.minPC > s.maxPC ↔ ws = []) := by
  have hw2 : ∀ p ∈ ws, p.2 < RAMSIZE := hw
  obtain ⟨s, he, hmin, hmax⟩ := emitList_ok ws (initImg fill) hw2
  have hR : RAMSIZE = 65536 := rfl
  rw [show (initImg fill).minPC = RAMSIZE from rfl] at hmin
  rw [show (initImg fill).maxPC = 0 from rfl] at hmax
  refine ⟨rfl, rfl, s, he, ?_, ?_, ?_⟩
  · intro p hp
    have h1 := foldl_min_le_mem (ws.map Prod.snd) RAMSIZE p.2
      (List.mem_map_of_mem Prod.snd hp)
    have h2 := foldl_max_mem_le (ws.map Prod.snd) 0 p.2
      (List.mem_map_of_mem Prod.snd hp)
    omega
  · intro hne
    obtain ⟨q, hq⟩ := List.exists_mem_of_ne_nil ws hne
    have hqm : q.2 ∈ ws.map Prod.snd := List.mem_map_of_mem Prod.snd hq
    constructor
    · rcases foldl_min_choice (ws.map Prod.snd) RAMSIZE with h | h
      · exfalso
        have h1 := foldl_min_le_mem (ws.map Prod.snd) RAMSIZE q.2 hqm
        have h3 := hw q hq
        omega
      · rw [hmin]; exact h
    · rcases foldl_max_choice (ws.map Prod.snd) 0 with h | h
      · have h1 := foldl_max_mem_le (ws.map Prod.snd) 0 q.2 hqm
        have hq0 : q.2 = 0 := by omega
        rw [hmax, h, ← hq0]
        exact hqm
      · rw [hmax]; exact h
  · constructor
    · intro hgt
      by_contra hne
      obtain ⟨q, hq⟩ := List.exists_mem_of_ne_nil ws hne
      have hqm : q.2 ∈ ws.map Prod.snd := List.mem_map_of_mem Prod.snd hq
      have h1 := foldl_min_le_mem (ws.map Prod.snd) RAMSIZE q.2 hqm
      have h2 := foldl_max_mem_le (ws.map Prod.snd) 0 q.2 hqm
      omega
    · intro hnil
      subst hnil
      simp only [List.map_nil, List.foldl_nil] at hmin hmax
      omega

/-- Witness for C6 at a concrete trace: writes at addresses 7 and 4. -/
theorem claim6_touched_range_invariant_witness :
    (initImg 0).minPC = 0x10000 ∧ (initImg 0).maxPC = 0 ∧
    ∃ s, emitList [(0xAA, 7), (0xBB, 4)] (initImg 0) = .ok s ∧
      (∀ p ∈ [(0xAA, 7), (0xBB, 4)], s.minPC ≤ p.2 ∧ p.2 ≤ s.maxPC) ∧
      ([(0xAA, 7), (0xBB, 4)] ≠ ([] : List (Nat × Nat)) →
        s.minPC ∈ [(0xAA, 7), (0xBB, 4)].map Prod.snd ∧
        s.maxPC ∈ [(0xAA, 7), (0xBB, 4)].map Prod.snd) ∧
      (s.minPC > s.maxPC ↔ [(0xAA, 7), (0xBB, 4)] = ([] : List (Nat × Nat))) :=
  claim6_touched_range_invariant [(0xAA, 7), (0xBB, 4)] 0 (by decide)

/-- C8: noninterference of the load offset: two runs of the same source
that differ only in the externally supplied offset argument produce
identical final Memory Image bytes and identical `minTouched`/`maxTouched`
values — the offset affects only which range is written to output files,
never the encoding itself. -/
theorem claim8_offset_noninterference (prog : List Stmt) (fill : Nat)
    (o1 o2 : Int) (listing : Bool) (verboseMode : Nat) (hasOutName : Bool) :
    (mainRun prog fill o1 listing verboseMode hasOutName).map
        (fun r => (r.1.ram, r.1.minPC, r.1.maxPC)) =
    (mainRun prog fill o2 listing verboseMode hasOutName).map
        (fun r => (r.1.ram, r.1.minPC, r.1.maxPC)) := by
  unfold mainRun
  cases assemble prog (initState fill) <;> rfl

/-- C9: the driver unconditionally overwrites the last character of each
line read with a NUL terminator before tokenization, so a final source
line not terminated by a newline loses its last meaningful character
before being tokenized and encoded. -/
theorem claim9_final_line_chopped (l : List Char) (c : Char) :
    chopEol (l ++ [c]) = l ∧ (c ≠ '\n' → chopEol (l ++ [c]) ≠ l ++ [c]) := by
  have hd : chopEol (l ++ [c]) = l := by
    simp [chopEol]
  refine ⟨hd, fun _ hne => ?_⟩
  rw [hd] at hne
  have : (l : List Char).length = (l ++ [c]).length := by rw [← hne]
  simp at this

/-- Witness for C9: the line "JP L" with no trailing newline loses its
final character. -/
theorem claim9_final_line_chopped_witness :
    chopEol (['J', 'P', ' '] ++ ['L']) = ['J', 'P', ' '] ∧
    chopEol (['J', 'P', ' '] ++ ['L']) ≠ ['J', 'P', ' '] ++ ['L'] :=
  ⟨(claim9_final_line_chopped ['J', 'P', ' '] 'L').1,
   (claim9_final_line_chopped ['J', 'P', ' '] 'L').2 (by decide)⟩

/-- C10: when listing or verbose mode is enabled and no byte was ever
written (`minTouched > maxTouched` at end of assembly), the program prints
"No data created" and terminates with exit status 1, producing no output
files, even though the assembly itself hit no fatal error. -/
theorem claim10_no_data_created (prog : List Stmt) (fill : Nat) (offset : Int)
    (listing : Bool) (verboseMode : Nat) (hasOutName : Bool) (s : AsmState)
    (hok : assemble prog (initState fill) = .ok s)
    (hmode : listing = true ∨ verboseMode ≠ 0)
    (hrange : s.img.maxPC < s.img.minPC) :
    mainRun prog fill offset listing verboseMode hasOutName = .ok (s.img, .noData) ∧
    Outcome.noData.exitCode = 1 ∧ Outcome.noData.producesFiles = false := by
  refine ⟨?_, rfl, rfl⟩
  unfold mainRun
  rw [hok]
  have hcond : ((listing || verboseMode ≠ 0) && ¬ (s.img.minPC ≤ s.img.maxPC)) = true := by
    simp only [Bool.and_eq_true, Bool.or_eq_true, decide_eq_true_eq]
    exact ⟨hmode, by omega⟩
  simp only [Except.map]
  unfold mainTail
  rw [if_pos hcond]

/-- Witness for C10: the empty program with listing mode on ends with
`minPC = 0x10000 > 0 = maxPC` and exits through the "No data created"
path. -/
theorem claim10_no_data_created_witness :
    mainRun [] 0 (-1) true 0 true = .ok ((initState 0).img, .noData) ∧
    Outcome.noData.exitCode = 1 ∧ Outcome.noData.producesFiles = false :=
  claim10_no_data_created [] 0 (-1) true 0 true (initState 0) rfl (Or.inl rfl) (by decide)

/-- C4 counterexample: on the source line "  LD A,5  " (leading and
trailing blanks) the fatal-error reporter echoes the line with its
trailing blanks kept, so the echoed text is not the whitespace-trimmed
line text the claim describes. -/
theorem claim4_counterexample :
    (errorReport 3 ("  LD A,5  ".data)).echoed ≠ specTrim ("  LD A,5  ".data) := by
  decide

/-- C4 (amended): on a fatal error the program reports the current line
number and the current source line with its leading whitespace removed
(trailing whitespace is kept), then terminates the run with exit status 1;
a fatal error during assembly aborts `main` before the post-assembly
stage, so no output file range is ever produced. -/
theorem claim4_fatal_error_reporting :
    (∀ (lineNo : Nat) (buf : List Char),
        (errorReport lineNo buf).line = lineNo ∧
        (errorReport lineNo buf).echoed = buf.dropWhile isCSpace ∧
        (errorReport lineNo buf).exitCode = 1) ∧
    (∀ (prog : List Stmt) (fill : Nat) (offset : Int) (listing : Bool)
        (verboseMode : Nat) (hasOutName : Bool) (e : String),
        assemble prog (initState fill) = .error e →
        mainRun prog fill offset listing verboseMode hasOutName = .error e) := by
  constructor
  · intro lineNo buf
    exact ⟨rfl, rfl, rfl⟩
  · intro prog fill offset listing verboseMode hasOutName e herr
    unfold mainRun
    rw [herr]
    rfl

/-- Witness for C4 (amended): the reporter at line 3 on "  LD A,5  ", and
the duplicate-label program aborting with no outcome. -/
theorem claim4_fatal_error_reporting_witness :
    ((errorReport 3 ("  LD A,5  ".data)).line = 3 ∧
      (errorReport 3 ("  LD A,5  ".data)).echoed = ("  LD A,5  ".data).dropWhile isCSpace ∧
      (errorReport 3 ("  LD A,5  ".data)).exitCode = 1) ∧
    mainRun [Stmt.labelDef "L", Stmt.labelDef "L"] 0 (-1) false 0 false =
      .error "symbol already defined" :=
  ⟨claim4_fatal_error_reporting.1 3 ("  LD A,5  ".data),
   claim4_fatal_error_reporting.2 [Stmt.labelDef "L", Stmt.labelDef "L"] 0 (-1) false 0 false
     "symbol already defined" (by rfl)⟩

lemma assemble_of_reachedEnd (ys : List Stmt) (s : AsmState) (h : s.reachedEnd = true) :
    assemble ys s = .ok s := by
  cases ys with
  | nil => rfl
  | cons y t =>
      unfold assemble
      rw [if_pos h]

lemma assemble_append (xs ys : List Stmt) (s : AsmState) :
    assemble (xs ++ ys) s = (assemble xs s).bind (assemble ys) := by
  induction xs generalizing s with
  | nil => rfl
  | cons x t ih =>
      by_cases h : s.reachedEnd
      · rw [List.cons_append]
        unfold assemble
        rw [if_pos h, if_pos h]
        simp only [Except.bind]
        exact (assemble_of_reachedEnd ys s h).symm
      · rw [List.cons_append]
        unfold assemble
        rw [if_neg h, if_neg h]
        cases hstep : assembleStmt x s with
        | error e => rfl
        | ok s2 =>
            simp only [Except.bind]
            exact ih s2

/-- C7: the driver processes one line at a time in order and, once the
`END` directive has been processed, no further lines are processed even if
more lines remain in the input; likewise a state whose end-of-program
signal is set processes no line at all. -/
theorem claim7_end_stops_processing (l1 l2 : List Stmt) (s0 : AsmState) :
    assemble (l1 ++ Stmt.endDirective :: l2) s0 = assemble (l1 ++ [Stmt.endDirective]) s0 ∧
    (s0.reachedEnd = true → assemble l1 s0 = .ok s0) := by
  constructor
  · rw [show (Stmt.endDirective :: l2) = [Stmt.endDirective] ++ l2 from rfl,
        ← List.append_assoc, assemble_append (l1 ++ [Stmt.endDirective]) l2 s0]
    cases hr : assemble (l1 ++ [Stmt.endDirective]) s0 with
    | error e => rfl
    | ok s1 =>
        simp only [Except.bind]
        have hend : s1.reachedEnd = true := by
          rw [assemble_append] at hr
          cases h1 : assemble l1 s0 with
          | error e => rw [h1] at hr; cases hr
          | ok sm =>
              rw [h1] at hr
              simp only [Except.bind] at hr
              by_cases hm : sm.reachedEnd
              · rw [assemble_of_reachedEnd _ sm hm] at hr
                cases hr
                exact hm
              · unfold assemble at hr
                rw [if_neg hm] at hr
                simp only [assembleStmt, Except.bind, assemble] at hr
                cases hr
                rfl
        exact assemble_of_reachedEnd l2 s1 hend
  · intro h
    exact assemble_of_reachedEnd l1 s0 h

/-- Witness for C7: after `END`, a following `ORG` line is not processed,
and a state with the end signal set processes nothing. -/
theorem claim7_end_stops_processing_witness :
    (assemble ([Stmt.org 5] ++ Stmt.endDirective :: [Stmt.org 7]) (initState 0) =
      assemble ([Stmt.org 5] ++ [Stmt.endDirective]) (initState 0)) ∧
    assemble [Stmt.org 5] { initState 0 with reachedEnd := true } =
      .ok { initState 0 with reachedEnd := true } :=
  ⟨(claim7_end_stops_processing [Stmt.org 5] [Stmt.org 7] (initState 0)).1,
   (claim7_end_stops_processing [Stmt.org 5] [Stmt.org 7]
      { initState 0 with reachedEnd := true }).2 rfl⟩

/-- C2: order-independence of forward references: assembling `JP L` with
`L:` defined only later at address `A` yields the same final Memory Image
(bytes and touched range) as assembling `L:` first and `JP L` afterwards,
for every in-range `A`; and the forward-reference run succeeds. -/
theorem claim2_forward_reference_order_independence (A pcJ fill : Nat)
    (hA : A < 0x10000) (hp : pcJ + 2 < 0x10000) :
    (assemble [Stmt.org pcJ, Stmt.jp "L", Stmt.org A, Stmt.labelDef "L"]
        (initState fill)).map (fun s => s.img) =
      (assemble [Stmt.org A, Stmt.labelDef "L", Stmt.org pcJ, Stmt.jp "L"]
        (initState fill)).map (fun s => s.img) ∧
    ∃ s1, assemble [Stmt.org pcJ, Stmt.jp "L", Stmt.org A, Stmt.labelDef "L"]
        (initState fill) = .ok s1 := by
  have hR : RAMSIZE = 65536 := rfl
  have h0 : pcJ < RAMSIZE := by omega
  have h1 : pcJ + 1 < RAMSIZE := by omega
  have h2 : pcJ + 2 < RAMSIZE := by omega
  have hA2 : A < RAMSIZE := by omega
  constructor
  · simp [assemble, assembleStmt, initState, initImg, SymTab.find, newSymbol,
          addFixup, SymTab.set, defineLabel, drainFixups, applyFixup, encodeWord,
          dispByte, emit_ok, h0, h1, h2, hA2, Except.bind, Except.map]
    refine ⟨funext fun x => ?_, by omega⟩
    simp only [upd]
    split_ifs <;> rfl
  · simp [assemble, assembleStmt, initState, initImg, SymTab.find, newSymbol,
          addFixup, SymTab.set, defineLabel, drainFixups, applyFixup, encodeWord,
          dispByte, emit_ok, h0, h1, h2, hA2, Except.bind, Except.map]

/-- Witness for C2 at `A = 0x1234`, `pcJ = 0x10`. -/
theorem claim2_forward_reference_order_independence_witness :
    (assemble [Stmt.org 0x10, Stmt.jp "L", Stmt.org 0x1234, Stmt.labelDef "L"]
        (initState 0)).map (fun s => s.img) =
      (assemble [Stmt.org 0x1234, Stmt.labelDef "L", Stmt.org 0x10, Stmt.jp "L"]
        (initState 0)).map (fun s => s.img) ∧
    ∃ s1, assemble [Stmt.org 0x10, Stmt.jp "L", Stmt.org 0x1234, Stmt.labelDef "L"]
        (initState 0) = .ok s1 :=
  claim2_forward_reference_order_independence 0x1234 0x10 0 (by decide) (by decide)

/-- C5: an unresolved symbol at end of assembly is non-fatal: the run over
`JP MISSING` completes with `.ok`, the placeholder bytes `C3 00 00` remain
at the emission address because the Fixup was never drained, and the
cross-reference enumeration reports `MISSING` as undefined. -/
theorem claim5_unresolved_symbol_nonfatal (fill pc : Nat) (hp : pc + 2 < 0x10000) :
    (assemble [Stmt.org pc, Stmt.jp "MISSING"] (initState fill)).map
      (fun s => (s.img.ram pc, s.img.ram (pc + 1), s.img.ram (pc + 2),
                 (finalize s.symtab).contains ("MISSING", none))) =
      .ok (0xC3, 0, 0, true) := by
  have hR : RAMSIZE = 65536 := rfl
  have h0 : pc < RAMSIZE := by omega
  have h1 : pc + 1 < RAMSIZE := by omega
  have h2 : pc + 2 < RAMSIZE := by omega
  simp [assemble, assembleStmt, initState, initImg, SymTab.find, newSymbol,
        addFixup, SymTab.set, finalize, emit_ok, h0, h1, h2, Except.bind,
        Except.map, upd]

/-- Witness for C5 at emission address 0x8000. -/
theorem claim5_unresolved_symbol_nonfatal_witness :
    (assemble [Stmt.org 0x8000, Stmt.jp "MISSING"] (initState 0)).map
      (fun s => (s.img.ram 0x8000, s.img.ram (0x8000 + 1), s.img.ram (0x8000 + 2),
                 (finalize s.symtab).contains ("MISSING", none))) =
      .ok (0xC3, 0, 0, true) :=
  claim5_unresolved_symbol_nonfatal 0 0x8000 (by decide)

lemma asSigned_dispByte (d : Int) (h1 : -128 ≤ d) (h2 : d ≤ 127) :
    asSigned (dispByte d) = d ∧ dispByte d < 256 := by
  unfold asSigned dispByte
  split <;> omega

lemma SymTab.find_set (t : SymTab) (n : String) (sym : Symbol) :
    (t.set n sym).find n = sym := by
  induction t with
  | nil => simp [SymTab.set, SymTab.find]
  | cons p rest ih =>
      by_cases h : n = p.1
      · simp [SymTab.set, SymTab.find, h]
      · simp [SymTab.set, SymTab.find, h, ih]

/-- A state whose symbol L is resolved to 0x100, cursor at 0x80: the
relative branch target is 126 bytes ahead of the instruction end. -/
def relResolvedState : AsmState :=
  { img := initImg 0, pc := 0x80,
    symtab := [("L", { value := 0x100, defined := true, pendingFixups := [] })],
    reachedEnd := false }

/-- A state whose symbol L is resolved to 0x300, cursor at 0x80: the
relative displacement 638 is out of range. -/
def relFarState : AsmState :=
  { img := initImg 0, pc := 0x80,
    symtab := [("L", { value := 0x300, defined := true, pendingFixups := [] })],
    reachedEnd := false }

/-- A state with an empty symbol table, cursor at 0x80: any branch target
is still unresolved. -/
def relUnresolvedState : AsmState :=
  { img := initImg 0, pc := 0x80, symtab := [], reachedEnd := false }

/-- C3: for every relative-branch instruction (`JR`, `DJNZ`) with a
resolved target the emitted displacement byte equals
`target - (address after the instruction)` exactly (read back as a signed
byte), encoding fails fatally whenever that displacement lies outside
-128..127; for an unresolved target a `SignedRelativeFrom` Fixup against
the address after the instruction is registered, and at fixup-propagation
time the same exact displacement is written with the same range check, an
out-of-range result again being fatal. -/
theorem claim3_relative_branch_displacement :
    (∀ (s : AsmState) (op : RelOp) (n : String),
        (s.symtab.find n).defined = true →
        s.pc + 1 < 0x10000 →
        -128 ≤ ((s.symtab.find n).value : Int) - ((s.pc : Int) + 2) →
        ((s.symtab.find n).value : Int) - ((s.pc : Int) + 2) ≤ 127 →
        ∃ s2, assembleStmt (.relBranch op n) s = .ok s2 ∧
          s2.img.ram s.pc = op.opcode ∧
          asSigned (s2.img.ram (s.pc + 1)) =
            ((s.symtab.find n).value : Int) - ((s.pc : Int) + 2) ∧
          s2.pc = s.pc + 2) ∧
    (∀ (s : AsmState) (op : RelOp) (n : String),
        (s.symtab.find n).defined = true →
        (((s.symtab.find n).value : Int) - ((s.pc : Int) + 2) < -128 ∨
         ((s.symtab.find n).value : Int) - ((s.pc : Int) + 2) > 127) →
        assembleStmt (.relBranch op n) s = .error "Relative jump out of range") ∧
    (∀ (s : AsmState) (op : RelOp) (n : String),
        (s.symtab.find n).defined = false →
        s.pc + 1 < 0x10000 →
        ∃ s2, assembleStmt (.relBranch op n) s = .ok s2 ∧
          (s2.symtab.find n).pendingFixups =
            (s.symtab.find n).pendingFixups ++
              [⟨s.pc + 1, .signedRelativeFrom (s.pc + 2), 0⟩]) ∧
    (∀ (v : Nat) (off : Int) (a loc : Nat) (img : Img),
        (loc < 0x10000 →
          -128 ≤ (v : Int) + off - (a : Int) →
          (v : Int) + off - (a : Int) ≤ 127 →
          ∃ img2, applyFixup v ⟨loc, .signedRelativeFrom a, off⟩ img = .ok img2 ∧
            asSigned (img2.ram loc) = (v : Int) + off - (a : Int)) ∧
        (((v : Int) + off - (a : Int) < -128 ∨ (v : Int) + off - (a : Int) > 127) →
          applyFixup v ⟨loc, .signedRelativeFrom a, off⟩ img =
            .error "Relative jump out of range")) := by
  have hR : RAMSIZE = 65536 := rfl
  refine ⟨?_, ?_, ?_, ?_⟩
  · intro s op n hdef hb hlo hhi
    have hpc : s.pc < RAMSIZE := by omega
    have hpc1 : s.pc + 1 < RAMSIZE := by omega
    have hnr : ¬ (((s.symtab.find n).value : Int) - ((s.pc : Int) + 2) < -128 ∨
                  ((s.symtab.find n).value : Int) - ((s.pc : Int) + 2) > 127) := by omega
    obtain ⟨ha, hlt⟩ := asSigned_dispByte _ hlo hhi
    simp only [assembleStmt, hdef, if_true, if_neg hnr, emit_ok _ _ _ hpc,
               Except.bind, emit_ok _ _ _ hpc1, Except.map]
    refine ⟨_, rfl, ?_, ?_, rfl⟩
    · cases op <;> simp [upd, RelOp.opcode]
    · simp only [upd, ite_true]
      rw [Nat.mod_eq_of_lt hlt]
      exact ha
  · intro s op n hdef ho
    simp only [assembleStmt, hdef, if_true, if_pos ho]
  · intro s op n hdef hb
    have hpc : s.pc < RAMSIZE := by omega
    have hpc1 : s.pc + 1 < RAMSIZE := by omega
    simp only [assembleStmt, hdef, Bool.false_eq_true, if_false,
               emit_ok _ _ _ hpc, Except.bind, emit_ok _ _ _ hpc1, Except.map]
    refine ⟨_, rfl, ?_⟩
    simp only [addFixup, SymTab.find_set]
  · intro v off a loc img
    constructor
    · intro hloc hlo hhi
      have hnr : ¬ ((v : Int) + off - (a : Int) < -128 ∨
                    (v : Int) + off - (a : Int) > 127) := by omega
      obtain ⟨ha, hlt⟩ := asSigned_dispByte _ hlo hhi
      have hloc2 : loc < RAMSIZE := by omega
      simp only [applyFixup, if_neg hnr, emit_ok _ _ _ hloc2]
      refine ⟨_, rfl, ?_⟩
      simp only [upd, ite_true]
      rw [Nat.mod_eq_of_lt hlt]
      exact ha
    · intro ho
      simp only [applyFixup, if_pos ho]

/-- Witness for C3: a resolved JR 126 bytes ahead, a resolved DJNZ 638
bytes ahead (fatal), an unresolved DJNZ registering its Fixup, and the
deferred patch of that Fixup in and out of range. -/
theorem claim3_relative_branch_displacement_witness :
    (∃ s2, assembleStmt (.relBranch .jr "L") relResolvedState = .ok s2 ∧
      s2.img.ram relResolvedState.pc = RelOp.jr.opcode ∧
      asSigned (s2.img.ram (relResolvedState.pc + 1)) =
        ((relResolvedState.symtab.find "L").value : Int) -
          ((relResolvedState.pc : Int) + 2) ∧
      s2.pc = relResolvedState.pc + 2) ∧
    assembleStmt (.relBranch .djnz "L") relFarState =
      .error "Relative jump out of range" ∧
    (∃ s2, assembleStmt (.relBranch .djnz "L") relUnresolvedState = .ok s2 ∧
      (s2.symtab.find "L").pendingFixups =
        (relUnresolvedState.symtab.find "L").pendingFixups ++
          [⟨relUnresolvedState.pc + 1,
            .signedRelativeFrom (relUnresolvedState.pc + 2), 0⟩]) ∧
    (∃ img2, applyFixup 0x100 ⟨0x81, .signedRelativeFrom 0x82, 0⟩ (initImg 0) =
        .ok img2 ∧
      asSigned (img2.ram 0x81) = ((0x100 : Nat) : Int) + 0 - ((0x82 : Nat) : Int)) ∧
    applyFixup 0x300 ⟨0x81, .signedRelativeFrom 0x82, 0⟩ (initImg 0) =
      .error "Relative jump out of range" :=
  ⟨claim3_relative_branch_displacement.1 relResolvedState .jr "L"
      (by decide) (by decide) (by decide) (by decide),
   claim3_relative_branch_displacement.2.1 relFarState .djnz "L"
      (by decide) (by decide),
   claim3_relative_branch_displacement.2.2.1 relUnresolvedState .djnz "L"
      (by decide) (by decide),
   (claim3_relative_branch_displacement.2.2.2 0x100 0 0x82 0x81 (initImg 0)).1
      (by decide) (by decide) (by decide),
   (claim3_relative_branch_displacement.2.2.2 0x300 0 0x82 0x81 (initImg 0)).2
      (by decide)⟩

end Z80Asm
